import Mathlib

/-!
Shallow embedding of the loop-search scripts of the findyourway repository.

The repository holds two near-identical scripts:
  src/src/main.py        (bike preset)  -> namespace MainPy
  src/src/main copy.py   (walk preset)  -> namespace MainCopy

Graphs are osmnx MultiDiGraphs: a list of nodes with projected coordinates
and a list of keyed directed edges carrying an optional length attribute and
a highway attribute.  Randomness (random.shuffle) is modelled by an explicit
family of reordering functions, one per loop iteration; the great-circle
distance collaborator (ox.distance.great_circle) is an injectable function
argument.  Edge lengths, distances and scores are rationals.
-/

/-- Highway attribute of an edge as read by d.get, which may be absent,
a single tag, or a list of tags. -/
inductive Highway where
  | missing : Highway
  | tag : String → Highway
  | tags : List String → Highway
deriving DecidableEq

/-- A graph node: identifier plus the projected coordinates stored under the
keys y and x in G.nodes. -/
structure NodeData where
  id : Nat
  y : ℚ
  x : ℚ
deriving DecidableEq

/-- One edge entry (u, v, k, data) of the multigraph: endpoints, key,
optional length attribute and highway attribute. -/
structure EdgeData where
  u : Nat
  v : Nat
  key : Nat
  length : Option ℚ
  highway : Highway
deriving DecidableEq

/-- The multigraph: node list plus edge list. -/
structure Graph where
  nodes : List NodeData
  edges : List EdgeData
deriving DecidableEq

/-- Membership of a highway attribute in a bad-tag set, as tested by the
two preprocessing functions: an absent attribute never matches, a single tag
is tested directly, a tag list matches when any element matches. -/
def hwMatches (bad : List String) : Highway → Bool
  | Highway.missing => false
  | Highway.tag s => bad.contains s
  | Highway.tags l => l.any (fun s => bad.contains s)

/-- G.get_edge_data(u, v) followed by taking the first value: the first
edge entry from u to v, none when u and v are not adjacent. -/
def get_edge_data (G : Graph) (u v : Nat) : Option EdgeData :=
  (G.edges.filter (fun e => decide (e.u = u) && decide (e.v = v))).head?

/-- list(G[node]): the distinct out-neighbors of a node.  The enumeration
order is irrelevant downstream because every use feeds the list to the
shuffle function. -/
def neighborNodes (G : Graph) (n : Nat) : List Nat :=
  ((G.edges.filter (fun e => decide (e.u = n))).map (fun e => e.v)).dedup

/-- Coordinates (y, x) of a node, looked up in the node list. -/
def nodeYX (G : Graph) (n : Nat) : ℚ × ℚ :=
  match G.nodes.find? (fun nd => decide (nd.id = n)) with
  | some nd => (nd.y, nd.x)
  | none => (0, 0)

/-- Local state of one randomized walk: the path so far, the accumulated
distance, the current node, the per-variant edge tally and the per-node
visit counters (a defaultdict of ints). -/
structure WalkState (ε : Type) where
  path : List Nat
  dist : ℚ
  node : Nat
  visitedEdges : ε
  nodeVisits : Nat → Nat

/-- The inner for-loop of random_loop: scan the shuffled neighbor list and
return the first neighbor that is not an immediate backtrack, has fewer
than 3 counted visits, and has an edge with a resolvable length; the
returned length defaults to 1 when the length attribute is absent. -/
def chooseStep {ε : Type} (G : Graph) (s : WalkState ε) : List Nat → Option (Nat × ℚ)
  | [] => none
  | nb :: rest =>
    if 2 ≤ s.path.length ∧ s.path[s.path.length - 2]? = some nb then
      chooseStep G s rest
    else if 3 ≤ s.nodeVisits nb then
      chooseStep G s rest
    else
      match get_edge_data G s.node nb with
      | none => chooseStep G s rest
      | some ed => some (nb, ed.length.getD 1)

/-- Number of distinct nodes of a path: len(set(path)). -/
def uniqueNodeCount (p : List Nat) : Nat := p.dedup.length

/-- Node-repeat count of a path: len(path) - len(set(path)). -/
def repeatedNodeCount (p : List Nat) : Nat := p.length - uniqueNodeCount p

/-- Lookup in the last_seen dictionary, most recent entry first. -/
def lastSeenLookup (n : Nat) : List (Nat × Nat) → Option Nat
  | [] => none
  | (m, i) :: rest => if m = n then some i else lastSeenLookup n rest

/-- The subloop scan of score_path: walking the path in order, a node that
reappears within the given step window of its previous occurrence counts
one subloop; the last_seen index is updated at every position. -/
def subloopAux (window : Nat) : List Nat → Nat → List (Nat × Nat) → Nat
  | [], _, _ => 0
  | n :: rest, i, seen =>
    (match lastSeenLookup n seen with
     | some j => if i - j < window then 1 else 0
     | none => 0) + subloopAux window rest (i + 1) ((n, i) :: seen)

/-- Subloop count of a path for a given window. -/
def subloopCount (window : Nat) (p : List Nat) : Nat := subloopAux window p 0 []

/-- tuple(sorted((node, neighbor))): the unordered key of an edge. -/
def sortedPair (a b : Nat) : Nat × Nat := if a ≤ b then (a, b) else (b, a)

/-- The per-edge traversal tally of the walk variant: an association list
mirroring a defaultdict(int) keyed by unordered node pair. -/
abbrev EdgeTally := List ((Nat × Nat) × Nat)

/-- visited_edges[edge_key] += 1 on a defaultdict(int): bump the existing
entry or append a fresh entry with count 1. -/
def bumpEdge (k : Nat × Nat) : EdgeTally → EdgeTally
  | [] => [(k, 1)]
  | e :: rest => if e.1 = k then (e.1, e.2 + 1) :: rest else e :: bumpEdge k rest

/-- Number of tally entries with count above 1: the edges traversed more
than once. -/
def repeatedEdgeCount (ve : EdgeTally) : Nat := (ve.filter (fun e => decide (1 < e.2))).length

namespace MainPy

/-- preprocess_graph of main.py: drop edges shorter than 7 (missing length
reads as 0), and in walk mode additionally drop edges whose highway tag
matches the bad-tag set.  No isolated-node removal is performed. -/
def preprocess_graph (G : Graph) (mode : String) : Graph :=
  let G1 : Graph := { G with edges := G.edges.filter (fun e => !decide (e.length.getD 0 < 7)) }
  if mode = "walk" then
    { G1 with edges := G1.edges.filter (fun e => !hwMatches ["steps", "corridor", "platform"] e.highway) }
  else G1

/-- score_path of main.py: closeness to target, diversity reward, node
revisit penalty and tight-subloop penalty (window 20); there is no term for
repeated edges. -/
def score_path (path : List Nat) (dist target_dist : ℚ) : ℚ :=
  -abs (dist - target_dist)
    + (uniqueNodeCount path : ℚ) * 10
    - (repeatedNodeCount path : ℚ) * 20
    - (subloopCount 20 path : ℚ) * 25

/-- is_close_to_start of main.py, with the great-circle collaborator
injected; the default threshold used by random_loop is 50 meters. -/
def is_close_to_start (gc : ℚ × ℚ → ℚ × ℚ → ℚ) (G : Graph) (node start : Nat)
    (threshold_m : ℚ) : Bool :=
  decide (gc (nodeYX G node) (nodeYX G start) < threshold_m)

/-- The state update of one successful step of main.py random_loop: append
the neighbor, add the edge length, record the directed pair in the
visited_edges set, move to the neighbor and bump its visit counter. -/
def advance (s : WalkState (List (Nat × Nat))) (nb : Nat) (edge_len : ℚ) :
    WalkState (List (Nat × Nat)) :=
  { path := s.path ++ [nb]
    dist := s.dist + edge_len
    node := nb
    visitedEdges := if (s.node, nb) ∈ s.visitedEdges then s.visitedEdges else (s.node, nb) :: s.visitedEdges
    nodeVisits := fun m => if m = nb then s.nodeVisits m + 1 else s.nodeVisits m }

/-- The while-loop of main.py random_loop, with the remaining step budget
as fuel and the iteration counter indexing the shuffle family.  After a
successful step the symmetric closing band is checked and, inside it, the
50 meter proximity to the start; both holding returns the candidate. -/
def random_loop_aux (G : Graph) (start : Nat) (target_dist margin : ℚ)
    (shuffle : Nat → List Nat → List Nat) (gc : ℚ × ℚ → ℚ × ℚ → ℚ) :
    Nat → Nat → WalkState (List (Nat × Nat)) → Option (List Nat × ℚ × ℚ)
  | 0, _, _ => none
  | fuel + 1, i, s =>
    match chooseStep G s (shuffle i (neighborNodes G s.node)) with
    | none => none
    | some (nb, edge_len) =>
      let s2 := advance s nb edge_len
      if (1 - margin) * target_dist ≤ s2.dist ∧ s2.dist ≤ (1 + margin) * target_dist then
        if is_close_to_start gc G s2.node start 50 then
          some (s2.path, s2.dist, score_path s2.path s2.dist target_dist)
        else
          random_loop_aux G start target_dist margin shuffle gc fuel (i + 1) s2
      else
        random_loop_aux G start target_dist margin shuffle gc fuel (i + 1) s2

/-- random_loop of main.py.  A failed attempt is none; a successful one is
some (path, dist, score). -/
def random_loop (G : Graph) (start : Nat) (target_dist margin : ℚ) (max_steps : Nat)
    (shuffle : Nat → List Nat → List Nat) (gc : ℚ × ℚ → ℚ × ℚ → ℚ) :
    Option (List Nat × ℚ × ℚ) :=
  random_loop_aux G start target_dist margin shuffle gc max_steps 0
    { path := [start], dist := 0, node := start, visitedEdges := [], nodeVisits := fun _ => 0 }

end MainPy

namespace MainCopy

/-- The bad_highway_tags set of main copy.py. -/
def bad_highway_tags : List String :=
  ["steps", "corridor", "escalator", "elevator", "platform",
   "raceway", "proposed", "construction", "service", "footway"]

/-- preprocess_walk_graph of main copy.py: one pass marks edges whose
highway tag is bad or whose length (missing reads as 0) is below 5, those
edges are removed, and then every node left without an incident edge is
removed (nx.isolates). -/
def preprocess_walk_graph (G : Graph) : Graph :=
  let keptEdges := G.edges.filter
    (fun e => !(hwMatches bad_highway_tags e.highway || decide (e.length.getD 0 < 5)))
  { nodes := G.nodes.filter
      (fun nd => keptEdges.any (fun e => decide (e.u = nd.id) || decide (e.v = nd.id)))
    edges := keptEdges }

/-- score_path of main copy.py: closeness to target, diversity reward,
node revisit penalty, subloop penalty (window 30) and a penalty for every
edge traversed more than once, read off the visited_edges tally. -/
def score_path (path : List Nat) (dist target_dist : ℚ) (visited_edges : EdgeTally) : ℚ :=
  -abs (dist - target_dist)
    + (uniqueNodeCount path : ℚ) * 10
    - (repeatedNodeCount path : ℚ) * 40
    - (subloopCount 30 path : ℚ) * 30
    - (repeatedEdgeCount visited_edges : ℚ) * 20

/-- is_close_to_start of main copy.py; the default threshold used by
random_loop is 100 meters. -/
def is_close_to_start (gc : ℚ × ℚ → ℚ × ℚ → ℚ) (G : Graph) (node start : Nat)
    (threshold_m : ℚ) : Bool :=
  decide (gc (nodeYX G node) (nodeYX G start) < threshold_m)

/-- The state update of one successful step of main copy.py random_loop:
as in main.py, except that the traversal count of the unordered edge key
is bumped in the tally. -/
def advance (s : WalkState EdgeTally) (nb : Nat) (edge_len : ℚ) : WalkState EdgeTally :=
  { path := s.path ++ [nb]
    dist := s.dist + edge_len
    node := nb
    visitedEdges := bumpEdge (sortedPair s.node nb) s.visitedEdges
    nodeVisits := fun m => if m = nb then s.nodeVisits m + 1 else s.nodeVisits m }

/-- The while-loop of main copy.py random_loop.  The closing condition
only requires the accumulated distance to reach (1 - margin) times the
target, together with the 100 meter proximity to the start; there is no
upper bound on the distance. -/
def random_loop_aux (G : Graph) (start : Nat) (target_dist margin : ℚ)
    (shuffle : Nat → List Nat → List Nat) (gc : ℚ × ℚ → ℚ × ℚ → ℚ) :
    Nat → Nat → WalkState EdgeTally → Option (List Nat × ℚ × ℚ)
  | 0, _, _ => none
  | fuel + 1, i, s =>
    match chooseStep G s (shuffle i (neighborNodes G s.node)) with
    | none => none
    | some (nb, edge_len) =>
      let s2 := advance s nb edge_len
      if (1 - margin) * target_dist ≤ s2.dist ∧ is_close_to_start gc G s2.node start 100 = true then
        some (s2.path, s2.dist, score_path s2.path s2.dist target_dist s2.visitedEdges)
      else
        random_loop_aux G start target_dist margin shuffle gc fuel (i + 1) s2

/-- random_loop of main copy.py. -/
def random_loop (G : Graph) (start : Nat) (target_dist margin : ℚ) (max_steps : Nat)
    (shuffle : Nat → List Nat → List Nat) (gc : ℚ × ℚ → ℚ × ℚ → ℚ) :
    Option (List Nat × ℚ × ℚ) :=
  random_loop_aux G start target_dist margin shuffle gc max_steps 0
    { path := [start], dist := 0, node := start, visitedEdges := [], nodeVisits := fun _ => 0 }

end MainCopy

/-- One result entry of find_top_loops: the tuple (score, path, dist). -/
abbrev Res := ℚ × List Nat × ℚ

/-- Strict lexicographic comparison of node-id lists, as Python compares
lists of ints. -/
def listLt : List Nat → List Nat → Bool
  | [], [] => false
  | [], _ :: _ => true
  | _ :: _, [] => false
  | a :: as_, b :: bs => if a < b then true else if b < a then false else listLt as_ bs

/-- Strict comparison of result tuples, as Python compares the tuples
(score, path, dist): by score, then path, then dist. -/
def resLt (x y : Res) : Bool :=
  if x.1 < y.1 then true
  else if y.1 < x.1 then false
  else if listLt x.2.1 y.2.1 then true
  else if listLt y.2.1 x.2.1 then false
  else decide (x.2.2 < y.2.2)

/-- Descending insertion of a result tuple into a descending-sorted list. -/
def insertDesc (x : Res) : List Res → List Res
  | [] => [x]
  | y :: ys => if resLt x y then y :: insertDesc x ys else x :: y :: ys

/-- results.sort(reverse=True): descending sort of result tuples. -/
def sortDesc (l : List Res) : List Res := l.foldr insertDesc []

/-- tuple(sorted(set(path))): the deduplication key of a candidate, the
sorted list of its distinct nodes. -/
def loopKey (p : List Nat) : List Nat := List.insertionSort (· ≤ ·) p.dedup

/-- The accumulation loop shared by both find_top_loops variants: run the
attempts in order; a successful attempt whose loop key was not seen yet
adds its key to the seen set and appends (score, path, dist) to the
results. -/
def collect (attempt : Nat → Option (List Nat × ℚ × ℚ)) :
    List Nat → List (List Nat) → List Res → List Res
  | [], _, results => results
  | i :: rest, seen, results =>
    match attempt i with
    | none => collect attempt rest seen results
    | some (p, d, sc) =>
      if loopKey p ∈ seen then collect attempt rest seen results
      else collect attempt rest (loopKey p :: seen) (results ++ [(sc, p, d)])

namespace MainPy

/-- The attempt function driven by find_top_loops of main.py: random_loop
with the default max_steps of 120, attempt i drawing the i-th member of
the shuffle family. -/
def attemptFun (G : Graph) (start : Nat) (target_dist margin : ℚ)
    (shuffleFam : Nat → Nat → List Nat → List Nat) (gc : ℚ × ℚ → ℚ × ℚ → ℚ)
    (i : Nat) : Option (List Nat × ℚ × ℚ) :=
  random_loop G start target_dist margin 120 (shuffleFam i) gc

/-- The successful candidates among attempts 1..attempts. -/
def successfulCandidates (G : Graph) (start : Nat) (target_dist margin : ℚ)
    (attempts : Nat) (shuffleFam : Nat → Nat → List Nat → List Nat)
    (gc : ℚ × ℚ → ℚ × ℚ → ℚ) : List (List Nat × ℚ × ℚ) :=
  (List.range' 1 attempts).filterMap (attemptFun G start target_dist margin shuffleFam gc)

/-- Number of distinct loop keys among the successful candidates. -/
def distinctLoopKeyCount (G : Graph) (start : Nat) (target_dist margin : ℚ)
    (attempts : Nat) (shuffleFam : Nat → Nat → List Nat → List Nat)
    (gc : ℚ × ℚ → ℚ × ℚ → ℚ) : Nat :=
  (((successfulCandidates G start target_dist margin attempts shuffleFam gc).map
    (fun c => loopKey c.1)).dedup).length

/-- find_top_loops of main.py: collect deduplicated candidates over the
attempts, sort descending, keep the first top_k. -/
def find_top_loops (G : Graph) (start : Nat) (target_dist margin : ℚ)
    (attempts top_k : Nat) (shuffleFam : Nat → Nat → List Nat → List Nat)
    (gc : ℚ × ℚ → ℚ × ℚ → ℚ) : List Res :=
  (sortDesc (collect (attemptFun G start target_dist margin shuffleFam gc)
    (List.range' 1 attempts) [] [])).take top_k

end MainPy

namespace MainCopy

/-- The attempt function driven by find_top_loops of main copy.py:
random_loop with the default max_steps of 200. -/
def attemptFun (G : Graph) (start : Nat) (target_dist margin : ℚ)
    (shuffleFam : Nat → Nat → List Nat → List Nat) (gc : ℚ × ℚ → ℚ × ℚ → ℚ)
    (i : Nat) : Option (List Nat × ℚ × ℚ) :=
  random_loop G start target_dist margin 200 (shuffleFam i) gc

/-- The successful candidates among attempts 1..attempts. -/
def successfulCandidates (G : Graph) (start : Nat) (target_dist margin : ℚ)
    (attempts : Nat) (shuffleFam : Nat → Nat → List Nat → List Nat)
    (gc : ℚ × ℚ → ℚ × ℚ → ℚ) : List (List Nat × ℚ × ℚ) :=
  (List.range' 1 attempts).filterMap (attemptFun G start target_dist margin shuffleFam gc)

/-- Number of distinct loop keys among the successful candidates. -/
def distinctLoopKeyCount (G : Graph) (start : Nat) (target_dist margin : ℚ)
    (attempts : Nat) (shuffleFam : Nat → Nat → List Nat → List Nat)
    (gc : ℚ × ℚ → ℚ × ℚ → ℚ) : Nat :=
  (((successfulCandidates G start target_dist margin attempts shuffleFam gc).map
    (fun c => loopKey c.1)).dedup).length

/-- find_top_loops of main copy.py. -/
def find_top_loops (G : Graph) (start : Nat) (target_dist margin : ℚ)
    (attempts top_k : Nat) (shuffleFam : Nat → Nat → List Nat → List Nat)
    (gc : ℚ × ℚ → ℚ × ℚ → ℚ) : List Res :=
  (sortDesc (collect (attemptFun G start target_dist margin shuffleFam gc)
    (List.range' 1 attempts) [] [])).take top_k

end MainCopy

/-! ### Concrete objects used to exercise the definitions -/

/-- A shuffle that leaves every neighbor list unchanged: one possible
outcome of random.shuffle. -/
def shId : Nat → List Nat → List Nat := fun _ l => l

/-- The identity shuffle family for find_top_loops. -/
def shFamId : Nat → Nat → List Nat → List Nat := fun _ _ l => l

/-- A distance collaborator that reports every pair of coordinates as
coincident. -/
def gcZero : ℚ × ℚ → ℚ × ℚ → ℚ := fun _ _ => 0

/-- Two coincident nodes joined by a single 100 meter edge. -/
def Gw : Graph :=
  { nodes := [⟨0, 0, 0⟩, ⟨1, 0, 0⟩], edges := [⟨0, 1, 0, some 100, Highway.missing⟩] }

/-- A triangle on nodes 0, 1, 2 with 100 meter edges in both directions. -/
def Gtri : Graph :=
  { nodes := [⟨0, 0, 0⟩, ⟨1, 1, 0⟩, ⟨2, 2, 0⟩]
    edges := [⟨0, 1, 0, some 100, Highway.missing⟩, ⟨0, 2, 0, some 100, Highway.missing⟩,
              ⟨1, 2, 0, some 100, Highway.missing⟩, ⟨1, 0, 0, some 100, Highway.missing⟩,
              ⟨2, 0, 0, some 100, Highway.missing⟩, ⟨2, 1, 0, some 100, Highway.missing⟩] }

/-- The path walked around Gtri three times by the identity shuffle. -/
def triPath : List Nat := [0, 1, 2, 0, 1, 2, 0, 1, 2, 0]

/-- Two coincident nodes joined by a single 200 meter edge, longer than
the upper limit of any tight closing band around a 100 meter target. -/
def Gfar : Graph :=
  { nodes := [⟨0, 0, 0⟩, ⟨1, 0, 0⟩], edges := [⟨0, 1, 0, some 200, Highway.missing⟩] }

/-- Two coincident nodes joined by a zero-length edge. -/
def Gz : Graph :=
  { nodes := [⟨0, 0, 0⟩, ⟨1, 0, 0⟩], edges := [⟨0, 1, 0, some 0, Highway.missing⟩] }

/-- Two nodes joined by a single 3 meter edge, which preprocessing drops
as noise. -/
def Gshort : Graph :=
  { nodes := [⟨0, 0, 0⟩, ⟨1, 0, 0⟩], edges := [⟨0, 1, 0, some 3, Highway.missing⟩] }

/-- Two nodes joined by an edge with no length attribute. -/
def Gml : Graph :=
  { nodes := [⟨0, 0, 0⟩, ⟨1, 0, 0⟩], edges := [⟨0, 1, 0, none, Highway.missing⟩] }

/-- The initial walk state of the main.py variant started at node 0. -/
def sInit : WalkState (List (Nat × Nat)) :=
  { path := [0], dist := 0, node := 0, visitedEdges := [], nodeVisits := fun _ => 0 }

/-- Whether some node of the graph has no incident edge. -/
def hasIsolatedNode (G : Graph) : Bool :=
  G.nodes.any (fun nd => !(G.edges.any (fun e => decide (e.u = nd.id) || decide (e.v = nd.id))))

/-- 35 distinct nodes followed by one revisit of node 0, 35 steps after
its first occurrence. -/
def pW1 : List Nat := List.range 35 ++ [0]

/-- As pW1 with one further revisit of node 1, also 35 steps after its
first occurrence: one more repeated node, no further subloop. -/
def pW2 : List Nat := List.range 35 ++ [0, 1]

/-- Modelled from the spec: the count of edges traversed more than once by
a path, edges identified by their unordered node pair, independent of
traversal direction.  The main.py scorer receives no edge information, so
this quantity is reconstructed from the consecutive pairs of the path in
order to state the claim against it. -/
def pathEdgeRepeats (p : List Nat) : Nat :=
  let es := (p.zip p.tail).map (fun q => sortedPair q.1 q.2)
  ((es.dedup).filter (fun e => decide (1 < es.count e))).length

/-- A path taking edge 01 three times and edge 02 twice: two multiply
traversed edges. -/
def pA : List Nat := [0, 1, 0, 2, 0, 1]

/-- A path with the same node occurrence counts as pA, taking edge 01 four
times and edge 02 once: one multiply traversed edge. -/
def pB : List Nat := [0, 1, 0, 1, 0, 2]

/-! ### Specification of the neighbor scan -/

/-- A successful neighbor scan certifies the three guards of the inner
for-loop of random_loop: the chosen neighbor is not an immediate
backtrack, its counted visits are below 3, an edge to it exists, and the
returned length is its length attribute with default 1. -/
theorem chooseStep_spec {ε : Type} (G : Graph) (s : WalkState ε) :
    ∀ (l : List Nat) (nb : Nat) (len : ℚ), chooseStep G s l = some (nb, len) →
      ¬(2 ≤ s.path.length ∧ s.path[s.path.length - 2]? = some nb) ∧
      s.nodeVisits nb < 3 ∧
      ∃ ed, get_edge_data G s.node nb = some ed ∧ len = ed.length.getD 1 := by
  intro l
  induction l with
  | nil => intro nb len h; simp [chooseStep] at h
  | cons nb0 rest ih =>
    intro nb len h
    rw [chooseStep] at h
    split_ifs at h with h1 h2
    · exact ih nb len h
    · exact ih nb len h
    · cases hed : get_edge_data G s.node nb0 with
      | none => rw [hed] at h; exact ih nb len h
      | some ed =>
        rw [hed] at h
        simp only [Option.some.injEq, Prod.mk.injEq] at h
        obtain ⟨rfl, rfl⟩ := h
        exact ⟨h1, Nat.lt_of_not_le h2, ed, hed, rfl⟩

/-! ### Invariants of the randomized walk -/

/-- Invariant of the walk state, shared by both variants: the path is
nonempty, ends at the current node, starts at the start node, never has a
node equal to the node two positions earlier, and the visit counters tally
exactly the non-initial occurrences on the path, each capped at 3. -/
structure WalkInv (start : Nat) {ε : Type} (s : WalkState ε) : Prop where
  nonempty : s.path ≠ []
  last_eq : s.path.getLast? = some s.node
  head_eq : s.path[0]? = some start
  nobacktrack : ∀ j, j + 2 < s.path.length → s.path[j + 2]? ≠ s.path[j]?
  count_eq : ∀ n, s.path.count n = s.nodeVisits n + (if n = start then 1 else 0)
  visits_le : ∀ n, s.nodeVisits n ≤ 3

/-- The initial walk state satisfies the invariant. -/
theorem walkInv_init {ε : Type} (start : Nat) (ve : ε) :
    WalkInv start
      { path := [start], dist := 0, node := start, visitedEdges := ve, nodeVisits := fun _ => 0 } := by
  refine ⟨by simp, by simp, by simp, ?_, ?_, fun n => by simp⟩
  · intro j hj; simp at hj
  · intro n
    simp only [List.count_singleton']
    by_cases hn : n = start <;> simp [hn]
    · intro hc; exact hn (by simpa using hc.symm)

/-- One guarded step preserves the walk invariant.  The step is described
abstractly by its effect on path, node and visit counters, which is
identical in both variants. -/
theorem walkInv_step (start : Nat) {ε ε2 : Type} (s : WalkState ε) (s2 : WalkState ε2)
    (nb : Nat)
    (hpath : s2.path = s.path ++ [nb]) (hnode : s2.node = nb)
    (hvis : s2.nodeVisits = fun m => if m = nb then s.nodeVisits m + 1 else s.nodeVisits m)
    (hinv : WalkInv start s)
    (hguard : ¬(2 ≤ s.path.length ∧ s.path[s.path.length - 2]? = some nb))
    (hcap : s.nodeVisits nb < 3) :
    WalkInv start s2 := by
  have hlen : s.path.length ≠ 0 := by
    intro h0; exact hinv.nonempty (List.eq_nil_of_length_eq_zero h0)
  refine ⟨?_, ?_, ?_, ?_, ?_, ?_⟩
  · rw [hpath]; simp
  · rw [hpath, hnode]; simp
  · rw [hpath]
    rw [List.getElem?_append_left (by omega)]
    exact hinv.head_eq
  · intro j hj
    rw [hpath] at hj ⊢
    rw [List.length_append, List.length_singleton] at hj
    by_cases hcase : j + 2 < s.path.length
    · rw [List.getElem?_append_left hcase, List.getElem?_append_left (by omega)]
      exact hinv.nobacktrack j hcase
    · have hj2 : j + 2 = s.path.length := by omega
      have hga : (s.path ++ [nb])[j + 2]? = some nb := by
        rw [hj2]; exact List.getElem?_concat_length s.path nb
      have hgb : (s.path ++ [nb])[j]? = s.path[j]? := List.getElem?_append_left (by omega)
      rw [hga, hgb]
      have h2le : 2 ≤ s.path.length := by omega
      have hne : ¬ s.path[s.path.length - 2]? = some nb := by
        intro hc; exact hguard ⟨h2le, hc⟩
      have hjj : j = s.path.length - 2 := by omega
      rw [hjj]
      intro hc; exact hne hc.symm
  · intro n
    have hv : s2.nodeVisits n = if n = nb then s.nodeVisits n + 1 else s.nodeVisits n := by
      rw [hvis]
    rw [hpath, List.count_append, List.count_singleton', hv]
    have hc := hinv.count_eq n
    by_cases hn : n = nb
    · subst hn
      rw [if_pos rfl, if_pos rfl]
      omega
    · rw [if_neg (Ne.symm hn), if_neg hn]
      omega
  · intro n
    have hv : s2.nodeVisits n = if n = nb then s.nodeVisits n + 1 else s.nodeVisits n := by
      rw [hvis]
    rw [hv]
    by_cases hn : n = nb
    · subst hn
      rw [if_pos rfl]
      omega
    · rw [if_neg hn]
      exact hinv.visits_le n

/-- Properties of a finished path implied by the walk invariant: it starts
at the start node, never backtracks over the edge just taken, and no node
occurs more than 3 times, except the start node which may occur 4 times
because its initial placement is not counted by the visit counter. -/
structure PathProps (start : Nat) (p : List Nat) : Prop where
  nonempty : p ≠ []
  head_eq : p[0]? = some start
  nobacktrack : ∀ j, j + 2 < p.length → p[j + 2]? ≠ p[j]?
  count_others : ∀ n, n ≠ start → p.count n ≤ 3
  count_start : p.count start ≤ 4

/-- The walk invariant yields the path properties. -/
theorem pathProps_of_inv {ε : Type} (start : Nat) (s : WalkState ε) (hinv : WalkInv start s) :
    PathProps start s.path := by
  refine ⟨hinv.nonempty, hinv.head_eq, hinv.nobacktrack, ?_, ?_⟩
  · intro n hn
    have := hinv.count_eq n
    rw [if_neg hn] at this
    have := hinv.visits_le n
    omega
  · have := hinv.count_eq start
    rw [if_pos rfl] at this
    have := hinv.visits_le start
    omega

/-- Soundness of the main.py walk loop: a returned candidate satisfies the
path properties, its path grows by at most the remaining fuel, its
distance lies in the symmetric closing band, and its final node passed the
50 meter proximity check. -/
theorem randLoopAuxSpecMain (G : Graph) (start : Nat) (target_dist margin : ℚ)
    (shuffle : Nat → List Nat → List Nat) (gc : ℚ × ℚ → ℚ × ℚ → ℚ) :
    ∀ (fuel i : Nat) (s : WalkState (List (Nat × Nat))) (p : List Nat) (d sc : ℚ),
      WalkInv start s →
      MainPy.random_loop_aux G start target_dist margin shuffle gc fuel i s = some (p, d, sc) →
      PathProps start p ∧ p.length ≤ s.path.length + fuel ∧
      ((1 - margin) * target_dist ≤ d ∧ d ≤ (1 + margin) * target_dist) ∧
      ∃ lastn, p.getLast? = some lastn ∧ MainPy.is_close_to_start gc G lastn start 50 = true := by
  intro fuel
  induction fuel with
  | zero =>
    intro i s p d sc _ h
    simp [MainPy.random_loop_aux] at h
  | succ f ih =>
    intro i s p d sc hinv h
    rw [MainPy.random_loop_aux] at h
    cases hcs : chooseStep G s (shuffle i (neighborNodes G s.node)) with
    | none => rw [hcs] at h; simp at h
    | some pr =>
      obtain ⟨nb, elen⟩ := pr
      rw [hcs] at h
      obtain ⟨hg1, hg2, ed, hed, hlenq⟩ := chooseStep_spec G s _ nb elen hcs
      have hinv2 : WalkInv start (MainPy.advance s nb elen) :=
        walkInv_step start s _ nb rfl rfl rfl hinv hg1 hg2
      have hlen2 : (MainPy.advance s nb elen).path.length = s.path.length + 1 := by
        simp [MainPy.advance]
      dsimp only at h
      split_ifs at h with hband hclose
      · simp only [Option.some.injEq, Prod.mk.injEq] at h
        obtain ⟨hp, hd, _⟩ := h
        refine ⟨?_, ?_, ?_, ?_⟩
        · rw [← hp]; exact pathProps_of_inv start _ hinv2
        · rw [← hp]; omega
        · rw [← hd]; exact hband
        · rw [← hp]
          exact ⟨(MainPy.advance s nb elen).node, hinv2.last_eq, hclose⟩
      · obtain ⟨hpp, hlen3, hb, hcl⟩ := ih (i + 1) (MainPy.advance s nb elen) p d sc hinv2 h
        exact ⟨hpp, by omega, hb, hcl⟩
      · obtain ⟨hpp, hlen3, hb, hcl⟩ := ih (i + 1) (MainPy.advance s nb elen) p d sc hinv2 h
        exact ⟨hpp, by omega, hb, hcl⟩

/-- Soundness of the main copy.py walk loop: a returned candidate
satisfies the path properties, its path grows by at most the remaining
fuel, its distance reaches the lower margin bound, and its final node
passed the 100 meter proximity check.  There is no upper distance bound. -/
theorem randLoopAuxSpecCopy (G : Graph) (start : Nat) (target_dist margin : ℚ)
    (shuffle : Nat → List Nat → List Nat) (gc : ℚ × ℚ → ℚ × ℚ → ℚ) :
    ∀ (fuel i : Nat) (s : WalkState EdgeTally) (p : List Nat) (d sc : ℚ),
      WalkInv start s →
      MainCopy.random_loop_aux G start target_dist margin shuffle gc fuel i s = some (p, d, sc) →
      PathProps start p ∧ p.length ≤ s.path.length + fuel ∧
      (1 - margin) * target_dist ≤ d ∧
      ∃ lastn, p.getLast? = some lastn ∧ MainCopy.is_close_to_start gc G lastn start 100 = true := by
  intro fuel
  induction fuel with
  | zero =>
    intro i s p d sc _ h
    simp [MainCopy.random_loop_aux] at h
  | succ f ih =>
    intro i s p d sc hinv h
    rw [MainCopy.random_loop_aux] at h
    cases hcs : chooseStep G s (shuffle i (neighborNodes G s.node)) with
    | none => rw [hcs] at h; simp at h
    | some pr =>
      obtain ⟨nb, elen⟩ := pr
      rw [hcs] at h
      obtain ⟨hg1, hg2, ed, hed, hlenq⟩ := chooseStep_spec G s _ nb elen hcs
      have hinv2 : WalkInv start (MainCopy.advance s nb elen) :=
        walkInv_step start s _ nb rfl rfl rfl hinv hg1 hg2
      have hlen2 : (MainCopy.advance s nb elen).path.length = s.path.length + 1 := by
        simp [MainCopy.advance]
      dsimp only at h
      split_ifs at h with hcond
      · simp only [Option.some.injEq, Prod.mk.injEq] at h
        obtain ⟨hp, hd, _⟩ := h
        refine ⟨?_, ?_, ?_, ?_⟩
        · rw [← hp]; exact pathProps_of_inv start _ hinv2
        · rw [← hp]; omega
        · rw [← hd]; exact hcond.1
        · rw [← hp]
          exact ⟨(MainCopy.advance s nb elen).node, hinv2.last_eq, hcond.2⟩
      · obtain ⟨hpp, hlen3, hb, hcl⟩ := ih (i + 1) (MainCopy.advance s nb elen) p d sc hinv2 h
        exact ⟨hpp, by omega, hb, hcl⟩

/-! ### Claims about the walk generator -/

/-- Claim C1, amended.  A candidate returned by main.py random_loop has
its accumulated distance inside the symmetric band around the target and
its final node within 50 meters of the start; a candidate returned by
main copy.py random_loop only satisfies the lower bound
(1 - margin) * target together with the 100 meter proximity, with no upper
bound on the distance. -/
theorem c1_closing_conditions (G : Graph) (start : Nat) (target_dist margin : ℚ)
    (max_steps : Nat) (shuffle : Nat → List Nat → List Nat) (gc : ℚ × ℚ → ℚ × ℚ → ℚ)
    (p : List Nat) (d sc : ℚ) (p2 : List Nat) (d2 sc2 : ℚ) :
    (MainPy.random_loop G start target_dist margin max_steps shuffle gc = some (p, d, sc) →
      ((1 - margin) * target_dist ≤ d ∧ d ≤ (1 + margin) * target_dist) ∧
      ∃ lastn, p.getLast? = some lastn ∧ MainPy.is_close_to_start gc G lastn start 50 = true) ∧
    (MainCopy.random_loop G start target_dist margin max_steps shuffle gc = some (p2, d2, sc2) →
      (1 - margin) * target_dist ≤ d2 ∧
      ∃ lastn, p2.getLast? = some lastn ∧ MainCopy.is_close_to_start gc G lastn start 100 = true) := by
  constructor
  · intro h
    rw [MainPy.random_loop] at h
    obtain ⟨_, _, hb, hcl⟩ := randLoopAuxSpecMain G start target_dist margin shuffle gc
      max_steps 0 _ p d sc (walkInv_init start []) h
    exact ⟨hb, hcl⟩
  · intro h
    rw [MainCopy.random_loop] at h
    obtain ⟨_, _, hb, hcl⟩ := randLoopAuxSpecCopy G start target_dist margin shuffle gc
      max_steps 0 _ p2 d2 sc2 (walkInv_init start []) h
    exact ⟨hb, hcl⟩

/-- Witness for C1: a concrete successful run of both variants on Gw. -/
theorem c1_closing_conditions_wit :
    MainPy.random_loop Gw 0 100 (1/2) 5 shId gcZero = some ([0, 1], 100, 20) ∧
    MainCopy.random_loop Gw 0 100 (1/2) 5 shId gcZero = some ([0, 1], 100, 20) ∧
    ((((1 : ℚ) - 1/2) * 100 ≤ 100 ∧ (100 : ℚ) ≤ (1 + 1/2) * 100) ∧
      ∃ lastn, ([0, 1] : List Nat).getLast? = some lastn ∧
        MainPy.is_close_to_start gcZero Gw lastn 0 50 = true) ∧
    (((1 : ℚ) - 1/2) * 100 ≤ 100 ∧
      ∃ lastn, ([0, 1] : List Nat).getLast? = some lastn ∧
        MainCopy.is_close_to_start gcZero Gw lastn 0 100 = true) := by
  have h1 : MainPy.random_loop Gw 0 100 (1/2) 5 shId gcZero = some ([0, 1], 100, 20) := by
    with_unfolding_all decide
  have h2 : MainCopy.random_loop Gw 0 100 (1/2) 5 shId gcZero = some ([0, 1], 100, 20) := by
    with_unfolding_all decide
  exact ⟨h1, h2,
    (c1_closing_conditions Gw 0 100 (1/2) 5 shId gcZero [0, 1] 100 20 [0, 1] 100 20).1 h1,
    (c1_closing_conditions Gw 0 100 (1/2) 5 shId gcZero [0, 1] 100 20 [0, 1] 100 20).2 h2⟩

set_option maxRecDepth 4000 in
/-- Counterexample for C1 as stated: on Gfar with target 100 and margin
1/20, the walk variant returns a candidate whose accumulated distance
200 exceeds the upper band limit (1 + margin) * target = 105. -/
theorem c1_band_cex :
    MainCopy.random_loop Gfar 0 100 (1/20) 10 shId gcZero = some ([0, 1], 200, -80) ∧
    ¬((200 : ℚ) ≤ (1 + 1/20) * 100) := by
  constructor
  · with_unfolding_all decide
  · with_unfolding_all decide

/-- Claim C6: a path produced by either random_loop variant has at most
max_steps transitions (so at most max_steps + 1 nodes) and never revisits
the node it occupied two positions earlier. -/
theorem c6_walk_bounds (G : Graph) (start : Nat) (target_dist margin : ℚ)
    (max_steps : Nat) (shuffle : Nat → List Nat → List Nat) (gc : ℚ × ℚ → ℚ × ℚ → ℚ)
    (p : List Nat) (d sc : ℚ) (p2 : List Nat) (d2 sc2 : ℚ) :
    (MainPy.random_loop G start target_dist margin max_steps shuffle gc = some (p, d, sc) →
      p.length ≤ max_steps + 1 ∧ ∀ j, j + 2 < p.length → p[j + 2]? ≠ p[j]?) ∧
    (MainCopy.random_loop G start target_dist margin max_steps shuffle gc = some (p2, d2, sc2) →
      p2.length ≤ max_steps + 1 ∧ ∀ j, j + 2 < p2.length → p2[j + 2]? ≠ p2[j]?) := by
  constructor
  · intro h
    rw [MainPy.random_loop] at h
    obtain ⟨hpp, hlen, _, _⟩ := randLoopAuxSpecMain G start target_dist margin shuffle gc
      max_steps 0 _ p d sc (walkInv_init start []) h
    refine ⟨?_, hpp.nobacktrack⟩
    simp only [List.length_singleton] at hlen
    omega
  · intro h
    rw [MainCopy.random_loop] at h
    obtain ⟨hpp, hlen, _, _⟩ := randLoopAuxSpecCopy G start target_dist margin shuffle gc
      max_steps 0 _ p2 d2 sc2 (walkInv_init start []) h
    refine ⟨?_, hpp.nobacktrack⟩
    simp only [List.length_singleton] at hlen
    omega

/-- Witness for C6: concrete successful runs of both variants on the
triangle graph, with the bounds evaluated on the returned 10 node path. -/
theorem c6_walk_bounds_wit :
    MainPy.random_loop Gtri 0 900 (1/20) 12 shId gcZero = some (triPath, 900, -285) ∧
    MainCopy.random_loop Gtri 0 900 (1/20) 12 shId gcZero = some (triPath, 900, -520) ∧
    (triPath.length ≤ 12 + 1 ∧ ∀ j, j + 2 < triPath.length → triPath[j + 2]? ≠ triPath[j]?) ∧
    (triPath.length ≤ 12 + 1 ∧ ∀ j, j + 2 < triPath.length → triPath[j + 2]? ≠ triPath[j]?) := by
  have h1 : MainPy.random_loop Gtri 0 900 (1/20) 12 shId gcZero = some (triPath, 900, -285) := by
    set_option maxRecDepth 4000 in with_unfolding_all decide
  have h2 : MainCopy.random_loop Gtri 0 900 (1/20) 12 shId gcZero = some (triPath, 900, -520) := by
    set_option maxRecDepth 4000 in with_unfolding_all decide
  exact ⟨h1, h2,
    (c6_walk_bounds Gtri 0 900 (1/20) 12 shId gcZero triPath 900 (-285) triPath 900 (-520)).1 h1,
    (c6_walk_bounds Gtri 0 900 (1/20) 12 shId gcZero triPath 900 (-285) triPath 900 (-520)).2 h2⟩

/-- Claim C9: in a path produced by either random_loop variant, every
node other than the start occurs at most 3 times while the start node,
whose initial placement is not counted by the visit counter, may occur up
to 4 times. -/
theorem c9_visit_caps (G : Graph) (start : Nat) (target_dist margin : ℚ)
    (max_steps : Nat) (shuffle : Nat → List Nat → List Nat) (gc : ℚ × ℚ → ℚ × ℚ → ℚ)
    (p : List Nat) (d sc : ℚ) (p2 : List Nat) (d2 sc2 : ℚ) :
    (MainPy.random_loop G start target_dist margin max_steps shuffle gc = some (p, d, sc) →
      p[0]? = some start ∧ (∀ n, n ≠ start → p.count n ≤ 3) ∧ p.count start ≤ 4) ∧
    (MainCopy.random_loop G start target_dist margin max_steps shuffle gc = some (p2, d2, sc2) →
      p2[0]? = some start ∧ (∀ n, n ≠ start → p2.count n ≤ 3) ∧ p2.count start ≤ 4) := by
  constructor
  · intro h
    rw [MainPy.random_loop] at h
    obtain ⟨hpp, _, _, _⟩ := randLoopAuxSpecMain G start target_dist margin shuffle gc
      max_steps 0 _ p d sc (walkInv_init start []) h
    exact ⟨hpp.head_eq, hpp.count_others, hpp.count_start⟩
  · intro h
    rw [MainCopy.random_loop] at h
    obtain ⟨hpp, _, _, _⟩ := randLoopAuxSpecCopy G start target_dist margin shuffle gc
      max_steps 0 _ p2 d2 sc2 (walkInv_init start []) h
    exact ⟨hpp.head_eq, hpp.count_others, hpp.count_start⟩

/-- Witness for C9: on the triangle graph both variants return a path in
which the start node 0 actually occurs 4 times while nodes 1 and 2 occur
3 times, saturating the caps. -/
theorem c9_visit_caps_wit :
    MainPy.random_loop Gtri 0 900 (1/20) 12 shId gcZero = some (triPath, 900, -285) ∧
    MainCopy.random_loop Gtri 0 900 (1/20) 12 shId gcZero = some (triPath, 900, -520) ∧
    (triPath[0]? = some 0 ∧ (∀ n, n ≠ 0 → triPath.count n ≤ 3) ∧ triPath.count 0 ≤ 4) ∧
    (triPath[0]? = some 0 ∧ (∀ n, n ≠ 0 → triPath.count n ≤ 3) ∧ triPath.count 0 ≤ 4) ∧
    triPath.count 0 = 4 ∧ triPath.count 1 = 3 := by
  have h1 : MainPy.random_loop Gtri 0 900 (1/20) 12 shId gcZero = some (triPath, 900, -285) := by
    set_option maxRecDepth 4000 in with_unfolding_all decide
  have h2 : MainCopy.random_loop Gtri 0 900 (1/20) 12 shId gcZero = some (triPath, 900, -520) := by
    set_option maxRecDepth 4000 in with_unfolding_all decide
  exact ⟨h1, h2,
    (c9_visit_caps Gtri 0 900 (1/20) 12 shId gcZero triPath 900 (-285) triPath 900 (-520)).1 h1,
    (c9_visit_caps Gtri 0 900 (1/20) 12 shId gcZero triPath 900 (-285) triPath 900 (-520)).2 h2,
    by decide, by decide⟩

/-- Claim C10: when the guards pass and the first edge found between the
current node and the chosen neighbor has no length attribute, the neighbor
scan does not skip the neighbor or fail; it selects the step with the
default length 1, which both variants then add to the accumulated
distance. -/
theorem c10_default_edge_length {ε : Type} (G : Graph) (s : WalkState ε) (nb : Nat)
    (rest : List Nat) (ed : EdgeData)
    (h1 : ¬(2 ≤ s.path.length ∧ s.path[s.path.length - 2]? = some nb))
    (h2 : s.nodeVisits nb < 3)
    (h3 : get_edge_data G s.node nb = some ed)
    (h4 : ed.length = none) :
    chooseStep G s (nb :: rest) = some (nb, 1) ∧
    (∀ (sM : WalkState (List (Nat × Nat))) (m : Nat), (MainPy.advance sM m 1).dist = sM.dist + 1) ∧
    (∀ (sC : WalkState EdgeTally) (m : Nat), (MainCopy.advance sC m 1).dist = sC.dist + 1) := by
  refine ⟨?_, fun sM m => rfl, fun sC m => rfl⟩
  rw [chooseStep, if_neg h1, if_neg (by omega : ¬ 3 ≤ s.nodeVisits nb), h3]
  dsimp only
  rw [h4]
  rfl

/-- Witness for C10: on Gml the scan from the initial state selects the
length-attribute-free edge with default length 1. -/
theorem c10_default_edge_length_wit :
    (¬(2 ≤ sInit.path.length ∧ sInit.path[sInit.path.length - 2]? = some 1)) ∧
    sInit.nodeVisits 1 < 3 ∧
    get_edge_data Gml sInit.node 1 = some ⟨0, 1, 0, none, Highway.missing⟩ ∧
    chooseStep Gml sInit [1] = some (1, 1) := by
  have h1 : ¬(2 ≤ sInit.path.length ∧ sInit.path[sInit.path.length - 2]? = some 1) := by decide
  have h2 : sInit.nodeVisits 1 < 3 := by decide
  have h3 : get_edge_data Gml sInit.node 1 = some ⟨0, 1, 0, none, Highway.missing⟩ := by
    with_unfolding_all decide
  exact ⟨h1, h2, h3, (c10_default_edge_length Gml sInit 1 [] _ h1 h2 h3 rfl).1⟩

/-! ### Claims about preprocessing -/

/-- Filtering is idempotent. -/
theorem filterIdem {α : Type} (p : α → Bool) (l : List α) :
    (l.filter p).filter p = l.filter p :=
  List.filter_eq_self.mpr fun _ ha => (List.mem_filter.mp ha).2

/-- Claim C7: both preprocessing functions are idempotent: cleaning an
already cleaned graph changes nothing. -/
theorem c7_preprocess_idempotent :
    (∀ (G : Graph) (mode : String),
      MainPy.preprocess_graph (MainPy.preprocess_graph G mode) mode =
        MainPy.preprocess_graph G mode) ∧
    (∀ G : Graph,
      MainCopy.preprocess_walk_graph (MainCopy.preprocess_walk_graph G) =
        MainCopy.preprocess_walk_graph G) := by
  constructor
  · intro G mode
    by_cases hm : mode = "walk"
    · subst hm
      simp [MainPy.preprocess_graph]
      apply List.filter_congr
      intro a _
      cases hwMatches ["steps", "corridor", "platform"] a.highway <;>
        cases decide (a.length.getD 0 < 7) <;> rfl
    · simp [MainPy.preprocess_graph, hm, filterIdem]
  · intro G
    simp [MainCopy.preprocess_walk_graph, filterIdem]

/-- Counterexample for C4 as stated: main.py preprocess_graph leaves both
endpoints of the removed 3 meter edge in the graph as isolated nodes. -/
theorem c4_isolates_cex : hasIsolatedNode (MainPy.preprocess_graph Gshort "walk") = true := by
  with_unfolding_all decide

/-- Claim C4, amended: the walk variant preprocess_walk_graph leaves no
isolated node: every retained node has an incident retained edge.  The
main.py preprocess_graph performs no isolate removal. -/
theorem c4_no_isolates_walkpy (G : Graph) (nd : NodeData)
    (h : nd ∈ (MainCopy.preprocess_walk_graph G).nodes) :
    (MainCopy.preprocess_walk_graph G).edges.any
      (fun e => decide (e.u = nd.id) || decide (e.v = nd.id)) = true := by
  simp only [MainCopy.preprocess_walk_graph] at h ⊢
  exact (List.mem_filter.mp h).2

/-- Witness for C4: the surviving node 0 of the cleaned Gw has an incident
edge. -/
theorem c4_no_isolates_walkpy_wit :
    (⟨0, 0, 0⟩ : NodeData) ∈ (MainCopy.preprocess_walk_graph Gw).nodes ∧
    (MainCopy.preprocess_walk_graph Gw).edges.any
      (fun e => decide (e.u = (⟨0, 0, 0⟩ : NodeData).id) ||
        decide (e.v = (⟨0, 0, 0⟩ : NodeData).id)) = true := by
  have h : (⟨0, 0, 0⟩ : NodeData) ∈ (MainCopy.preprocess_walk_graph Gw).nodes := by
    with_unfolding_all decide
  exact ⟨h, c4_no_isolates_walkpy Gw ⟨0, 0, 0⟩ h⟩

/-! ### Claims about the scorer -/

/-- Claim C8: both scorers are deterministic, and with distinct node count
and subloop count held fixed, a strictly larger repeated-node count gives
a strictly lower score (weights 20 and 40 respectively). -/
theorem c8_scorer_monotone :
    (∀ (p1 p2 : List Nat) (d1 d2 t1 t2 : ℚ), p1 = p2 → d1 = d2 → t1 = t2 →
      MainPy.score_path p1 d1 t1 = MainPy.score_path p2 d2 t2) ∧
    (∀ (p1 p2 : List Nat) (d t : ℚ),
      uniqueNodeCount p1 = uniqueNodeCount p2 →
      subloopCount 20 p1 = subloopCount 20 p2 →
      repeatedNodeCount p1 < repeatedNodeCount p2 →
      MainPy.score_path p2 d t < MainPy.score_path p1 d t) ∧
    (∀ (p1 p2 : List Nat) (d1 d2 t1 t2 : ℚ) (ve1 ve2 : EdgeTally),
      p1 = p2 → d1 = d2 → t1 = t2 → ve1 = ve2 →
      MainCopy.score_path p1 d1 t1 ve1 = MainCopy.score_path p2 d2 t2 ve2) ∧
    (∀ (p1 p2 : List Nat) (d t : ℚ) (ve : EdgeTally),
      uniqueNodeCount p1 = uniqueNodeCount p2 →
      subloopCount 30 p1 = subloopCount 30 p2 →
      repeatedNodeCount p1 < repeatedNodeCount p2 →
      MainCopy.score_path p2 d t ve < MainCopy.score_path p1 d t ve) := by
  refine ⟨fun p1 p2 d1 d2 t1 t2 hp hd ht => by rw [hp, hd, ht], ?_,
    fun p1 p2 d1 d2 t1 t2 ve1 ve2 hp hd ht hv => by rw [hp, hd, ht, hv], ?_⟩
  · intro p1 p2 d t hu hs hr
    unfold MainPy.score_path
    rw [hu, hs]
    have hrq : (repeatedNodeCount p1 : ℚ) < repeatedNodeCount p2 := by exact_mod_cast hr
    linarith
  · intro p1 p2 d t ve hu hs hr
    unfold MainCopy.score_path
    rw [hu, hs]
    have hrq : (repeatedNodeCount p1 : ℚ) < repeatedNodeCount p2 := by exact_mod_cast hr
    linarith

/-- Witness for C8: pW2 has one more repeated node than pW1 with distinct
node count and subloop counts unchanged, and scores strictly lower under
both scorers. -/
theorem c8_scorer_monotone_wit :
    (uniqueNodeCount pW1 = uniqueNodeCount pW2 ∧
      subloopCount 20 pW1 = subloopCount 20 pW2 ∧
      subloopCount 30 pW1 = subloopCount 30 pW2 ∧
      repeatedNodeCount pW1 < repeatedNodeCount pW2) ∧
    MainPy.score_path pW2 0 500 < MainPy.score_path pW1 0 500 ∧
    MainCopy.score_path pW2 0 500 [] < MainCopy.score_path pW1 0 500 [] := by
  refine ⟨⟨by decide, by decide, by decide, by decide⟩, ?_, ?_⟩
  · exact c8_scorer_monotone.2.1 pW1 pW2 0 500 (by decide) (by decide) (by decide)
  · exact c8_scorer_monotone.2.2.2 pW1 pW2 0 500 [] (by decide) (by decide) (by decide)

/-- Counterexample for C2 as stated: pA traverses two edges more than once
where pB traverses only one edge more than once, all node statistics being
equal, yet the main.py scorer gives both the same score: its result has no
edge-repeat component and it is not strictly decreasing in the number of
multiply traversed edges. -/
theorem c2_edge_repeat_cex :
    uniqueNodeCount pA = uniqueNodeCount pB ∧
    repeatedNodeCount pA = repeatedNodeCount pB ∧
    subloopCount 20 pA = subloopCount 20 pB ∧
    pathEdgeRepeats pB < pathEdgeRepeats pA ∧
    MainPy.score_path pA 100 100 = MainPy.score_path pB 100 100 ∧
    ¬(MainPy.score_path pA 100 100 < MainPy.score_path pB 100 100) := by
  refine ⟨by decide, by decide, by decide, by decide, ?_, ?_⟩
  · with_unfolding_all decide
  · with_unfolding_all decide

/-- Claim C2, amended: the walk variant scorer equals the sum of its five
components, including the penalty of 20 per edge traversed more than once,
and is strictly decreasing in the repeated-edge count with the other
inputs fixed; the main.py scorer has no edge-repeat component. -/
theorem c2_edge_repeat_scoring :
    (∀ (path : List Nat) (dist target_dist : ℚ) (ve : EdgeTally),
      MainCopy.score_path path dist target_dist ve =
        -abs (dist - target_dist) + (uniqueNodeCount path : ℚ) * 10
          - (repeatedNodeCount path : ℚ) * 40 - (subloopCount 30 path : ℚ) * 30
          - (repeatedEdgeCount ve : ℚ) * 20) ∧
    (∀ (path : List Nat) (dist target_dist : ℚ) (ve1 ve2 : EdgeTally),
      repeatedEdgeCount ve1 < repeatedEdgeCount ve2 →
      MainCopy.score_path path dist target_dist ve2 <
        MainCopy.score_path path dist target_dist ve1) := by
  constructor
  · intro path dist target_dist ve
    rfl
  · intro path dist target_dist ve1 ve2 h
    unfold MainCopy.score_path
    have hq : (repeatedEdgeCount ve1 : ℚ) < repeatedEdgeCount ve2 := by exact_mod_cast h
    linarith

/-- Witness for C2: a tally with two multiply traversed edges scores 20
lower than a tally with one, path and distances fixed. -/
theorem c2_edge_repeat_scoring_wit :
    repeatedEdgeCount [((0, 1), 1)] < repeatedEdgeCount [((0, 1), 2), ((1, 2), 2)] ∧
    MainCopy.score_path [0, 1] 100 100 [((0, 1), 2), ((1, 2), 2)] <
      MainCopy.score_path [0, 1] 100 100 [((0, 1), 1)] := by
  refine ⟨by decide, ?_⟩
  exact c2_edge_repeat_scoring.2 [0, 1] 100 100 [((0, 1), 1)] [((0, 1), 2), ((1, 2), 2)] (by decide)

/-! ### Claims about the search engine -/

set_option maxRecDepth 4000 in
/-- Counterexample for C3 as stated: with targetDistance 0, which the
claim says is rejected before any attempt runs, find_top_loops drives a
walk that returns a candidate, which find_top_loops then returns. -/
theorem c3_no_validation_cex :
    MainPy.find_top_loops Gz 0 0 (1/5) 1 3 shFamId gcZero = [(20, [0, 1], 0)] := by
  with_unfolding_all decide

/-- Claim C3, amended: find_top_loops performs no configuration
validation and signals no invalid-configuration condition.  With
attempts = 0 the loop body never runs and the empty list is returned;
with top_k = 0 the empty list is returned; with targetDistance at or
below 0 attempts still run and candidates can be returned. -/
theorem c3_config_behavior (G : Graph) (start : Nat) (target_dist margin : ℚ)
    (attempts top_k : Nat) (shuffleFam : Nat → Nat → List Nat → List Nat)
    (gc : ℚ × ℚ → ℚ × ℚ → ℚ) :
    MainPy.find_top_loops G start target_dist margin 0 top_k shuffleFam gc = [] ∧
    MainPy.find_top_loops G start target_dist margin attempts 0 shuffleFam gc = [] ∧
    MainCopy.find_top_loops G start target_dist margin 0 top_k shuffleFam gc = [] ∧
    MainCopy.find_top_loops G start target_dist margin attempts 0 shuffleFam gc = [] := by
  refine ⟨?_, ?_, ?_, ?_⟩ <;>
    simp [MainPy.find_top_loops, MainCopy.find_top_loops, collect, sortDesc]

/-! ### Sorting and deduplication machinery of find_top_loops -/

/-- A true tuple comparison implies the first score is at most the second. -/
theorem resLt_true_le {x y : Res} (h : resLt x y = true) : x.1 ≤ y.1 := by
  unfold resLt at h
  split_ifs at h with h1 h2 h3 h4 <;>
    first
      | exact le_of_lt h1
      | exact le_of_not_lt h2

/-- A false tuple comparison implies the second score is at most the
first. -/
theorem resLt_false_ge {x y : Res} (h : resLt x y = false) : y.1 ≤ x.1 := by
  unfold resLt at h
  split_ifs at h with h1 h2 h3 h4 <;>
    first
      | exact le_of_lt h2
      | exact le_of_not_lt h1

/-- Membership in a descending insertion. -/
theorem mem_insertDesc (x a : Res) (l : List Res) : a ∈ insertDesc x l ↔ a = x ∨ a ∈ l := by
  induction l with
  | nil => simp [insertDesc]
  | cons y ys ih =>
    cases hlt : resLt x y with
    | true =>
      rw [insertDesc, if_pos hlt]
      simp [ih]
      tauto
    | false =>
      rw [insertDesc, if_neg (by simp [hlt])]
      simp

/-- Descending insertion permutes the consed list. -/
theorem perm_insertDesc (x : Res) (l : List Res) : (insertDesc x l).Perm (x :: l) := by
  induction l with
  | nil => simp [insertDesc]
  | cons y ys ih =>
    cases hlt : resLt x y with
    | true =>
      rw [insertDesc, if_pos hlt]
      exact (ih.cons y).trans (List.Perm.swap x y ys)
    | false =>
      rw [insertDesc, if_neg (by simp [hlt])]

/-- Descending insertion preserves non-increasing scores. -/
theorem pairwise_insertDesc (x : Res) (l : List Res)
    (h : l.Pairwise (fun a b => b.1 ≤ a.1)) :
    (insertDesc x l).Pairwise (fun a b => b.1 ≤ a.1) := by
  induction l with
  | nil => simp [insertDesc]
  | cons y ys ih =>
    obtain ⟨hy, hys⟩ := List.pairwise_cons.mp h
    cases hlt : resLt x y with
    | true =>
      rw [insertDesc, if_pos hlt]
      refine List.pairwise_cons.mpr ⟨?_, ih hys⟩
      intro z hz
      rcases (mem_insertDesc x z ys).mp hz with rfl | hzys
      · exact resLt_true_le hlt
      · exact hy z hzys
    | false =>
      rw [insertDesc, if_neg (by simp [hlt])]
      have hxy : y.1 ≤ x.1 := resLt_false_ge hlt
      refine List.pairwise_cons.mpr ⟨?_, List.pairwise_cons.mpr ⟨hy, hys⟩⟩
      intro z hz
      rcases List.mem_cons.mp hz with rfl | hzys
      · exact hxy
      · exact le_trans (hy z hzys) hxy

/-- The descending sort permutes its input. -/
theorem perm_sortDesc (l : List Res) : (sortDesc l).Perm l := by
  induction l with
  | nil => simp [sortDesc]
  | cons x xs ih => exact (perm_insertDesc x _).trans (ih.cons x)

/-- The descending sort has non-increasing scores. -/
theorem pairwise_sortDesc (l : List Res) : (sortDesc l).Pairwise (fun a b => b.1 ≤ a.1) := by
  induction l with
  | nil => simp [sortDesc]
  | cons x xs ih => exact pairwise_insertDesc x _ ih

/-- Paths visiting the same set of distinct nodes have the same loop key. -/
theorem loopKey_eq_of_toFinset_eq {p q : List Nat} (h : p.toFinset = q.toFinset) :
    loopKey p = loopKey q := by
  have hperm : p.dedup.Perm q.dedup := List.toFinset_eq_iff_perm_dedup.mp h
  have h1 : (List.insertionSort (· ≤ ·) p.dedup).Perm (List.insertionSort (· ≤ ·) q.dedup) :=
    ((List.perm_insertionSort _ _).trans hperm).trans (List.perm_insertionSort _ _).symm
  exact List.eq_of_perm_of_sorted h1 (List.sorted_insertionSort _ _) (List.sorted_insertionSort _ _)

/-- Invariant of the accumulation loop: starting from results whose keys
are distinct and all recorded in the seen set, the accumulated results
keep distinct keys, and every key comes from the seen set or from a
successful attempt. -/
theorem collect_inv (attempt : Nat → Option (List Nat × ℚ × ℚ)) :
    ∀ (idxs : List Nat) (seen : List (List Nat)) (results : List Res),
      (results.map (fun r => loopKey r.2.1)).Nodup →
      (∀ k ∈ results.map (fun r => loopKey r.2.1), k ∈ seen) →
      ((collect attempt idxs seen results).map (fun r => loopKey r.2.1)).Nodup ∧
      (∀ k ∈ (collect attempt idxs seen results).map (fun r => loopKey r.2.1),
        k ∈ seen ∨ k ∈ (idxs.filterMap attempt).map (fun c => loopKey c.1)) := by
  intro idxs
  induction idxs with
  | nil =>
    intro seen results h1 h2
    exact ⟨h1, fun k hk => Or.inl (h2 k hk)⟩
  | cons i rest ih =>
    intro seen results h1 h2
    cases hat : attempt i with
    | none =>
      rw [collect, hat]
      obtain ⟨ha, hb⟩ := ih seen results h1 h2
      refine ⟨ha, fun k hk => ?_⟩
      rcases hb k hk with h | h
      · exact Or.inl h
      · right
        simp only [List.filterMap_cons, hat]
        exact h
    | some c =>
      obtain ⟨p, d, sc⟩ := c
      by_cases hseen : loopKey p ∈ seen
      · rw [collect, hat]
        dsimp only
        rw [if_pos hseen]
        obtain ⟨ha, hb⟩ := ih seen results h1 h2
        refine ⟨ha, fun k hk => ?_⟩
        rcases hb k hk with h | h
        · exact Or.inl h
        · right
          simp only [List.filterMap_cons, hat, List.map_cons]
          exact List.mem_cons_of_mem _ h
      · rw [collect, hat]
        dsimp only
        rw [if_neg hseen]
        have h1' : ((results ++ [(sc, p, d)]).map (fun r => loopKey r.2.1)).Nodup := by
          rw [List.map_append]
          simp only [List.map_cons, List.map_nil]
          rw [List.nodup_append]
          refine ⟨h1, List.nodup_singleton _, ?_⟩
          intro k hk hk1
          rcases List.mem_singleton.mp hk1 with rfl
          exact hseen (h2 _ hk)
        have h2' : ∀ k ∈ (results ++ [(sc, p, d)]).map (fun r => loopKey r.2.1),
            k ∈ loopKey p :: seen := by
          intro k hk
          rw [List.map_append, List.mem_append] at hk
          rcases hk with hk | hk
          · exact List.mem_cons_of_mem _ (h2 k hk)
          · simp only [List.map_cons, List.map_nil, List.mem_singleton] at hk
            rw [hk]
            exact List.mem_cons_self _ _
        obtain ⟨ha, hb⟩ := ih (loopKey p :: seen) (results ++ [(sc, p, d)]) h1' h2'
        refine ⟨ha, fun k hk => ?_⟩
        rcases hb k hk with h | h
        · rcases List.mem_cons.mp h with rfl | h
          · right
            simp only [List.filterMap_cons, hat, List.map_cons]
            exact List.mem_cons_self _ _
          · exact Or.inl h
        · right
          simp only [List.filterMap_cons, hat, List.map_cons]
          exact List.mem_cons_of_mem _ h

/-- A duplicate-free list included in another list is no longer than the
deduplication of the latter. -/
theorem nodupSubsetLength {α : Type} [DecidableEq α] (l m : List α)
    (h1 : l.Nodup) (h2 : ∀ a ∈ l, a ∈ m) : l.length ≤ m.dedup.length := by
  calc l.length = l.toFinset.card := (List.toFinset_card_of_nodup h1).symm
    _ ≤ m.toFinset.card :=
      Finset.card_le_card (fun a ha => List.mem_toFinset.mpr (h2 a (List.mem_toFinset.mp ha)))
    _ = m.dedup.length := List.card_toFinset m

/-- The three result-set properties, generically over the attempt
function shared by both find_top_loops variants. -/
theorem findTopLoopsSpec (attempt : Nat → Option (List Nat × ℚ × ℚ)) (attempts top_k : Nat) :
    ((sortDesc (collect attempt (List.range' 1 attempts) [] [])).take top_k).length ≤
      min top_k
        ((((List.range' 1 attempts).filterMap attempt).map (fun c => loopKey c.1)).dedup).length ∧
    ((sortDesc (collect attempt (List.range' 1 attempts) [] [])).take top_k).Pairwise
      (fun a b => b.1 ≤ a.1) ∧
    ((sortDesc (collect attempt (List.range' 1 attempts) [] [])).take top_k).Pairwise
      (fun a b => a.2.1.toFinset ≠ b.2.1.toFinset) := by
  obtain ⟨hnodup, hmem⟩ :=
    collect_inv attempt (List.range' 1 attempts) [] [] (by simp) (by simp)
  refine ⟨?_, ?_, ?_⟩
  · rw [List.length_take, (perm_sortDesc _).length_eq]
    refine min_le_min le_rfl ?_
    have hsub := nodupSubsetLength
      ((collect attempt (List.range' 1 attempts) [] []).map (fun r => loopKey r.2.1))
      (((List.range' 1 attempts).filterMap attempt).map (fun c => loopKey c.1))
      hnodup (fun a ha => (hmem a ha).resolve_left (by simp))
    simpa using hsub
  · exact (pairwise_sortDesc _).sublist (List.take_sublist _ _)
  · have hkey : (collect attempt (List.range' 1 attempts) [] []).Pairwise
        (fun a b => loopKey a.2.1 ≠ loopKey b.2.1) := by
      rw [List.Nodup, List.pairwise_map] at hnodup
      exact hnodup
    have hsorted : (sortDesc (collect attempt (List.range' 1 attempts) [] [])).Pairwise
        (fun a b => loopKey a.2.1 ≠ loopKey b.2.1) :=
      ((perm_sortDesc _).pairwise_iff (fun h => Ne.symm h)).mpr hkey
    refine ((hsorted.sublist (List.take_sublist _ _)).imp ?_)
    intro a b hab hts
    exact hab (loopKey_eq_of_toFinset_eq hts)

/-- Claim C5: for both find_top_loops variants the returned sequence has
length at most min(topK, number of distinct loop keys among successful
candidates), its scores are non-increasing from first to last, and no two
entries visit the same set of distinct nodes. -/
theorem c5_resultset_properties (G : Graph) (start : Nat) (target_dist margin : ℚ)
    (attempts top_k : Nat) (shuffleFam : Nat → Nat → List Nat → List Nat)
    (gc : ℚ × ℚ → ℚ × ℚ → ℚ) :
    ((MainPy.find_top_loops G start target_dist margin attempts top_k shuffleFam gc).length ≤
        min top_k (MainPy.distinctLoopKeyCount G start target_dist margin attempts shuffleFam gc) ∧
      (MainPy.find_top_loops G start target_dist margin attempts top_k shuffleFam gc).Pairwise
        (fun a b => b.1 ≤ a.1) ∧
      (MainPy.find_top_loops G start target_dist margin attempts top_k shuffleFam gc).Pairwise
        (fun a b => a.2.1.toFinset ≠ b.2.1.toFinset)) ∧
    ((MainCopy.find_top_loops G start target_dist margin attempts top_k shuffleFam gc).length ≤
        min top_k (MainCopy.distinctLoopKeyCount G start target_dist margin attempts shuffleFam gc) ∧
      (MainCopy.find_top_loops G start target_dist margin attempts top_k shuffleFam gc).Pairwise
        (fun a b => b.1 ≤ a.1) ∧
      (MainCopy.find_top_loops G start target_dist margin attempts top_k shuffleFam gc).Pairwise
        (fun a b => a.2.1.toFinset ≠ b.2.1.toFinset)) :=
  ⟨findTopLoopsSpec (MainPy.attemptFun G start target_dist margin shuffleFam gc) attempts top_k,
   findTopLoopsSpec (MainCopy.attemptFun G start target_dist margin shuffleFam gc) attempts top_k⟩
